import Mathlib

/-!
Shallow embedding of the five rate-limiting strategies of the `RateLimiter`
class (src/index.ts, src/limliter/rate-limiter.ts) together with the Redis
store protocol each strategy uses, and proofs of the specification claims.

Modelling conventions:
* JS numbers that arise here are integer-valued (millisecond timestamps,
  counters) or rationals (the weighted-count formula); `JInt` (`Option Int`)
  models an integer-valued JS number where `none` is `NaN`: arithmetic on
  `NaN` yields `NaN`, every comparison involving `NaN` is false, and
  `NaN.toString()` is `"NaN"`.  The two real-division sites
  (`windowMs / maxRequests` and the elapsed-fraction) are modelled in `ℚ`.
* The store is a record of association lists: scalar string keys, sorted
  sets, hashes, and the last TTL (in seconds, as the Redis `EX` option and
  `expire` take seconds) requested per key.  Passive key expiry is not
  modelled; the TTL map records the `expire`/`SET EX` writes.
* The sorted-set entries written by `slidingLogs` always have
  `value = score.toString()` with `score = currentTime`; decimal rendering
  of integers is injective, so the model identifies a member with its
  integer score (`zsets : List (String × List Int)`), and `zAdd` of an
  already-present member (same score, same value) leaves the set unchanged,
  exactly as in Redis.
* `Date.now()` values and the constructor arguments are modelled as `Int`;
  `Math.floor(t / w) * w` is `Int.fdiv t w * w` and the JS `%` agrees with
  `Int.emod` on the nonnegative arguments that occur.
-/

namespace RateLimiter

/-- An integer-valued JS number; `none` models `NaN`. -/
abbrev JInt := Option Int

/-- JS `+` on integer-valued numbers (`NaN` propagates). -/
def jsAdd : JInt → JInt → JInt
  | some a, some b => some (a + b)
  | _, _ => none

/-- JS `-` on integer-valued numbers (`NaN` propagates). -/
def jsSub : JInt → JInt → JInt
  | some a, some b => some (a - b)
  | _, _ => none

/-- JS `>=`: every comparison involving `NaN` is false. -/
def jsGe : JInt → JInt → Bool
  | some a, some b => decide (a ≥ b)
  | _, _ => false

/-- JS `<=`: every comparison involving `NaN` is false. -/
def jsLe : JInt → JInt → Bool
  | some a, some b => decide (a ≤ b)
  | _, _ => false

/-- JS `Math.max` (`Math.max(0, NaN)` is `NaN`). -/
def jsMax : JInt → JInt → JInt
  | some a, some b => some (max a b)
  | _, _ => none

/-- JS number-to-string for the integer-valued numbers stored by the code. -/
def jsToString : JInt → String
  | some n => toString n
  | none => "NaN"

/-- Numeric value of a decimal digit character. -/
def digitVal (c : Char) : Int := (c.toNat : Int) - 48

/-- JS `parseInt` (radix 10): skip leading spaces, optional sign, then the
longest leading run of decimal digits; `NaN` (`none`) when there is none. -/
def jsParseInt (s : String) : JInt :=
  let cs := s.toList.dropWhile (fun c => c = ' ')
  let sgn : Int := match cs with | '-' :: _ => -1 | _ => 1
  let cs2 := match cs with | '-' :: r => r | '+' :: r => r | r => r
  let ds := cs2.takeWhile Char.isDigit
  if ds.isEmpty then none
  else some (sgn * ds.foldl (fun acc c => acc * 10 + digitVal c) 0)

/-- The integer format Redis `INCR` accepts: an optional `-` sign followed by
decimal digits only. -/
def strictParseInt (s : String) : Option Int :=
  let sgn : Int := match s.toList with | '-' :: _ => -1 | _ => 1
  let cs := match s.toList with | '-' :: r => r | r => r
  if cs.isEmpty then none
  else if cs.all Char.isDigit then
    some (sgn * cs.foldl (fun acc c => acc * 10 + digitVal c) 0)
  else none

/-- The idiom `v ? parseInt(v) : 0` applied to a nullable stored string:
`null` and `""` are falsy and give `0`. -/
def jsTruthyParse : Option String → JInt
  | none => some 0
  | some v => if v = "" then some 0 else jsParseInt v

/-- A rational-valued JS number; `none` models `NaN`. -/
abbrev JRat := Option ℚ

/-- Cast an integer-valued JS number to a rational-valued one. -/
def jqOf : JInt → JRat
  | some n => some ((n : ℚ))
  | none => none

/-- JS `*` on rational-valued numbers (`NaN` propagates). -/
def jqMul : JRat → JRat → JRat
  | some a, some b => some (a * b)
  | _, _ => none

/-- JS `+` on rational-valued numbers (`NaN` propagates). -/
def jqAdd : JRat → JRat → JRat
  | some a, some b => some (a + b)
  | _, _ => none

/-- JS `>=` on rational-valued numbers (false on `NaN`). -/
def jqGe : JRat → JRat → Bool
  | some a, some b => decide (a ≥ b)
  | _, _ => false

/-- Lookup in an association list with string keys. -/
def alookup {β : Type} (k : String) : List (String × β) → Option β
  | [] => none
  | (ka, v) :: t => if ka = k then some v else alookup k t

/-- Overwrite-or-append in an association list with string keys. -/
def aset {β : Type} (k : String) (v : β) : List (String × β) → List (String × β)
  | [] => [(k, v)]
  | (ka, va) :: t => if ka = k then (k, v) :: t else (ka, va) :: aset k v t

/-- Integer `Math.ceil(a / b)` (`b > 0` in every use). -/
def ceilDivInt (a b : Int) : Int := -(Int.fdiv (-a) b)

/-- The shared configuration: `new RateLimiter(maxRequests, windowMs)`. -/
structure Config where
  maxRequests : Int
  windowMs : Int
deriving DecidableEq

/-- The Redis state the strategies touch: scalar strings, sorted sets
(members identified with their integer scores, see the header comment),
hashes, and the last requested TTL in seconds per key. -/
structure RStore where
  strs : List (String × String)
  zsets : List (String × List Int)
  hashes : List (String × List (String × String))
  ttlSec : List (String × Int)
deriving DecidableEq

/-- The store with no keys. -/
def RStore.empty : RStore := ⟨[], [], [], []⟩

/-- The recorded TTL of a key converted to milliseconds. -/
def RStore.ttlMsOf (s : RStore) (k : String) : Option Int :=
  (alookup k s.ttlSec).map (fun n => n * 1000)

/-- Model of `SET key value EX sec`. -/
def RStore.setEx (s : RStore) (k v : String) (sec : Int) : RStore :=
  { s with strs := aset k v s.strs, ttlSec := aset k sec s.ttlSec }

/-- Redis `INCR`: a missing key counts as `0` and becomes `1`; a stored value
that is not an integer makes the command error (`none`), leaving the store
unchanged. -/
def redisIncr (s : RStore) (k : String) : Option (Int × RStore) :=
  match alookup k s.strs with
  | none => some (1, { s with strs := aset k "1" s.strs })
  | some v =>
    match strictParseInt v with
    | some n => some (n + 1, { s with strs := aset k (toString (n + 1)) s.strs })
    | none => none

/-- Model of `hSet` with a field map, applied in the order the object literal lists
the fields; fields not mentioned are kept. -/
def hsetFields (h : List (String × String)) (fields : List (String × String)) :
    List (String × String) :=
  fields.foldl (fun acc fv => aset fv.1 fv.2 acc) h

/-- The hash stored at a key (empty when the key is missing). -/
def hashOf (k : String) (s : RStore) : List (String × String) :=
  (alookup k s.hashes).getD []

/-- One field of the hash stored at a key (`hmGet` gives `null` for a
missing field). -/
def hField (s : RStore) (k f : String) : Option String := alookup f (hashOf k s)

/-- Key of the fixed-window counter: `ip:windowStart`. -/
def fwKey (cfg : Config) (t : Int) (ip : String) : String :=
  ip ++ ":" ++ toString (Int.fdiv t cfg.windowMs * cfg.windowMs)

/-- Key of the sliding log: `sliding:ip`. -/
def slKey (ip : String) : String := "sliding:" ++ ip

/-- Key of the leaky bucket: `leaky:ip`. -/
def lbKey (ip : String) : String := "leaky:" ++ ip

/-- Key of the token bucket: `token:ip`. -/
def tbKey (ip : String) : String := "token:" ++ ip

/-- Key of a sliding-window counter: `ip:windowIndex`. -/
def swKey (ip : String) (w : Int) : String := ip ++ ":" ++ toString w

/-- Model of `RateLimiter.fixedWindow` (src/index.ts lines 42-71), error-free
execution: GET the counter, SET it to 1 with `EX windowMs` when absent,
deny when the parsed counter reaches `maxRequests`, else INCR and allow.
A value error of `INCR` (non-integer stored value) is caught by the
surrounding `try` and denies. -/
def fixedWindow (cfg : Config) (t : Int) (ip : String) (s : RStore) : Bool × RStore :=
  let key := fwKey cfg t ip
  let reqCount := alookup key s.strs
  let s1 := if reqCount = none then s.setEx key "1" cfg.windowMs else s
  let exceeded :=
    match reqCount with
    | none => false
    | some v => if v = "" then false else jsGe (jsParseInt v) (some cfg.maxRequests)
  if exceeded then (false, s1)
  else
    match redisIncr s1 key with
    | some (_, s2) => (true, s2)
    | none => (false, s1)

/-- Model of `zRemRangeByScore key 0 (t - windowMs)`: Redis removes the scores in the
closed interval `[0, t - windowMs]`. -/
def slPrune (cfg : Config) (t : Int) (l : List Int) : List Int :=
  l.filter (fun sc => !(decide (0 ≤ sc) && decide (sc ≤ t - cfg.windowMs)))

/-- Model of `zAdd` of the entry `{score: t, value: t.toString()}` in the
score-identified model: adding an already-present member leaves the set
unchanged. -/
def zAddI (l : List Int) (t : Int) : List Int :=
  if l.contains t then l else l ++ [t]

/-- The sliding log currently stored for an identifier. -/
def logOf (ip : String) (s : RStore) : List Int :=
  (alookup (slKey ip) s.zsets).getD []

/-- Model of `RateLimiter.slidingLogs` (src/index.ts lines 73-107), error-free
execution: prune, read the cardinality, deny at `maxRequests`, else add the
current timestamp and refresh the TTL. -/
def slidingLogs (cfg : Config) (t : Int) (ip : String) (s : RStore) : Bool × RStore :=
  let key := slKey ip
  let l1 := slPrune cfg t (logOf ip s)
  let s1 : RStore := { s with zsets := aset key l1 s.zsets }
  if cfg.maxRequests ≤ (l1.length : Int) then (false, s1)
  else
    let s2 : RStore := { s1 with zsets := aset key (zAddI l1 t) s1.zsets }
    (true, { s2 with ttlSec := aset key (ceilDivInt cfg.windowMs 1000 + 60) s2.ttlSec })

/-- Model of `Math.floor(elapsed / (windowMs / maxRequests))` with the inner division
real-valued, on a possibly-`NaN` elapsed time. -/
def leakedOf (cfg : Config) (elapsed : JInt) : JInt :=
  match elapsed with
  | none => none
  | some e => some ⌊(e : ℚ) / ((cfg.windowMs : ℚ) / (cfg.maxRequests : ℚ))⌋

/-- Model of `RateLimiter.leakyBucket` (src/index.ts lines 109-159), error-free
execution. -/
def leakyBucket (cfg : Config) (t : Int) (ip : String) (s : RStore) : Bool × RStore :=
  let key := lbKey ip
  let lastRequestTime := jsTruthyParse (hField s key "lastRequest")
  let currentBucketLevel := jsTruthyParse (hField s key "bucketLevel")
  let elapsed := jsSub (some t) lastRequestTime
  let newBucketLevel := jsMax (some 0) (jsSub currentBucketLevel (leakedOf cfg elapsed))
  if jsGe newBucketLevel (some cfg.maxRequests) then (false, s)
  else
    let h2 := hsetFields (hashOf key s)
      [("lastRequest", toString t), ("bucketLevel", jsToString (jsAdd newBucketLevel (some 1)))]
    (true, { s with hashes := aset key h2 s.hashes,
                    ttlSec := aset key (ceilDivInt cfg.windowMs 1000 + 60) s.ttlSec })

/-- The weighted count `previousCount * (1 - elapsedFraction) + currentCount` on possibly-`NaN`
counters. -/
def weightedOf (p c : JInt) (frac : ℚ) : JRat :=
  jqAdd (jqMul (jqOf p) (some (1 - frac))) (jqOf c)

/-- Model of `RateLimiter.slidingWindow` (src/index.ts lines 161-192), error-free
execution: deny on the current count alone, else on the weighted count, else
write `count + 1` with `EX windowMs` and allow. -/
def slidingWindow (cfg : Config) (t : Int) (ip : String) (s : RStore) : Bool × RStore :=
  let currentWindow := Int.fdiv t cfg.windowMs
  let key := swKey ip currentWindow
  let parsedCount := jsTruthyParse (alookup key s.strs)
  if jsGe parsedCount (some cfg.maxRequests) then (false, s)
  else
    let parsedLastCount := jsTruthyParse (alookup (swKey ip (currentWindow - 1)) s.strs)
    let elapsedTime : ℚ := ((t % cfg.windowMs : Int) : ℚ) / (cfg.windowMs : ℚ)
    if jqGe (weightedOf parsedLastCount parsedCount elapsedTime) (some (cfg.maxRequests : ℚ)) then
      (false, s)
    else (true, s.setEx key (jsToString (jsAdd parsedCount (some 1))) cfg.windowMs)

/-- Model of `RateLimiter.tokenBucket` (src/index.ts lines 194-238), error-free
execution. -/
def tokenBucket (cfg : Config) (t : Int) (ip : String) (s : RStore) : Bool × RStore :=
  let key := tbKey ip
  let currentTokenCount : JInt :=
    match hField s key "tokenCount" with
    | none => some cfg.maxRequests
    | some v => if v = "" then some cfg.maxRequests else jsParseInt v
  let lastRefillTime := jsTruthyParse (hField s key "lastRefill")
  let elapsed := jsSub (some t) lastRefillTime
  if jsGe elapsed (some cfg.windowMs) then
    let h2 := hsetFields (hashOf key s)
      [("tokenCount", toString (cfg.maxRequests - 1)), ("lastRefill", toString t)]
    (true, { s with hashes := aset key h2 s.hashes })
  else if jsLe currentTokenCount (some 0) then (false, s)
  else
    let h2 := hsetFields (hashOf key s)
      [("tokenCount", jsToString (jsSub currentTokenCount (some 1))),
       ("lastRefill", jsToString lastRefillTime)]
    (true, { s with hashes := aset key h2 s.hashes,
                    ttlSec := aset key (ceilDivInt cfg.windowMs 1000 + 60) s.ttlSec })

/-!
Failing-store semantics.  Each Redis round trip is numbered; `fa n = true`
makes the `n`-th round trip of the call raise.  A raised error does not
undo the writes of earlier, successful round trips.
-/

/-- Store paired with the index of the next Redis round trip of a call. -/
structure ExecState where
  store : RStore
  opIdx : Nat
deriving DecidableEq

/-- Advance to the next round-trip index. -/
def bumpOp (st : ExecState) : ExecState := { st with opIdx := st.opIdx + 1 }

/-- Model of `GET` under the failure schedule `fa`. -/
def opGet (fa : Nat → Bool) (k : String) (st : ExecState) :
    Except Unit (Option String) × ExecState :=
  if fa st.opIdx then (.error (), bumpOp st)
  else (.ok (alookup k st.store.strs), bumpOp st)

/-- Model of `SET ... EX sec` under the failure schedule `fa`. -/
def opSetEx (fa : Nat → Bool) (k v : String) (sec : Int) (st : ExecState) :
    Except Unit Unit × ExecState :=
  if fa st.opIdx then (.error (), bumpOp st)
  else (.ok (), bumpOp { st with store := st.store.setEx k v sec })

/-- Model of `INCR` under the failure schedule `fa`; also errors on a non-integer
stored value. -/
def opIncr (fa : Nat → Bool) (k : String) (st : ExecState) :
    Except Unit Int × ExecState :=
  if fa st.opIdx then (.error (), bumpOp st)
  else
    match redisIncr st.store k with
    | some (n, s2) => (.ok n, bumpOp { st with store := s2 })
    | none => (.error (), bumpOp st)

/-- The `try` block of `RateLimiter.fixedWindow` under failing-store
semantics. -/
def fixedWindowEBody (fa : Nat → Bool) (cfg : Config) (t : Int) (ip : String)
    (st : ExecState) : Except Unit Bool × ExecState :=
  let key := fwKey cfg t ip
  match opGet fa key st with
  | (.error e, st) => (.error e, st)
  | (.ok reqCount, st) =>
    let step : Except Unit Unit × ExecState :=
      if reqCount = none then opSetEx fa key "1" cfg.windowMs st else (.ok (), st)
    match step with
    | (.error e, st) => (.error e, st)
    | (.ok _, st) =>
      let exceeded :=
        match reqCount with
        | none => false
        | some v => if v = "" then false else jsGe (jsParseInt v) (some cfg.maxRequests)
      if exceeded then (.ok false, st)
      else
        match opIncr fa key st with
        | (.error e, st) => (.error e, st)
        | (.ok _, st) => (.ok true, st)

/-- Model of `RateLimiter.fixedWindow` under failing-store semantics: the `catch`
turns any raised error into a `false` decision, keeping the writes already
performed. -/
def fixedWindowE (fa : Nat → Bool) (cfg : Config) (t : Int) (ip : String)
    (st : ExecState) : Except Unit Bool × ExecState :=
  match fixedWindowEBody fa cfg t ip st with
  | (.error _, st2) => (.ok false, st2)
  | r => r

/-- Model of `RateLimiter.slidingWindow` under failing-store semantics.  The source
method has no `try`/`catch`, so a raised store error leaves the call as an
error. -/
def slidingWindowE (fa : Nat → Bool) (cfg : Config) (t : Int) (ip : String)
    (st : ExecState) : Except Unit Bool × ExecState :=
  let currentWindow := Int.fdiv t cfg.windowMs
  let key := swKey ip currentWindow
  match opGet fa key st with
  | (.error e, st) => (.error e, st)
  | (.ok requestCount, st) =>
    let parsedCount := jsTruthyParse requestCount
    if jsGe parsedCount (some cfg.maxRequests) then (.ok false, st)
    else
      match opGet fa (swKey ip (currentWindow - 1)) st with
      | (.error e, st) => (.error e, st)
      | (.ok lastWindowCount, st) =>
        let parsedLastCount := jsTruthyParse lastWindowCount
        let elapsedTime : ℚ := ((t % cfg.windowMs : Int) : ℚ) / (cfg.windowMs : ℚ)
        if jqGe (weightedOf parsedLastCount parsedCount elapsedTime)
            (some (cfg.maxRequests : ℚ)) then (.ok false, st)
        else
          match opSetEx fa key (jsToString (jsAdd parsedCount (some 1))) cfg.windowMs st with
          | (.error e, st) => (.error e, st)
          | (.ok _, st) => (.ok true, st)

/-- Sequential `slidingLogs` calls for one identifier: the list of
decisions. -/
def slidingLogsRun (cfg : Config) (ip : String) : RStore → List Int → List Bool
  | _, [] => []
  | s, t :: ts =>
      (slidingLogs cfg t ip s).1 :: slidingLogsRun cfg ip (slidingLogs cfg t ip s).2 ts

/-- How many calls were allowed at a timestamp inside the trailing interval
`(T - w, T]`. -/
def countAllowedIn (w T : Int) (ts : List Int) (bs : List Bool) : Nat :=
  ((ts.zip bs).filter (fun p => p.2 && decide (T - w < p.1) && decide (p.1 ≤ T))).length

/-- Per-call admission bound of a decision sequence: whenever a call at `t`
is allowed, fewer than `maxRequests` of the already-allowed timestamps
(accumulated in `H`) are newer than `t - windowMs`. -/
def allowBound (cfg : Config) : List Int → List Int → List Bool → Prop
  | H, t :: ts, true :: bs =>
      (((H.filter (fun x => decide (t - cfg.windowMs < x))).length : Int) < cfg.maxRequests)
        ∧ allowBound cfg (t :: H) ts bs
  | H, _ :: ts, false :: bs => allowBound cfg H ts bs
  | _, _, _ => True

/-! Association-list lemmas. -/

theorem alookup_aset_self {β : Type} (k : String) (v : β) (m : List (String × β)) :
    alookup k (aset k v m) = some v := by
  induction m with
  | nil => simp [aset, alookup]
  | cons hd t ih =>
    by_cases hk : hd.1 = k
    · simp [aset, hk, alookup]
    · simp [aset, hk, alookup, ih]

theorem alookup_aset_ne {β : Type} {k1 k2 : String} (h : k1 ≠ k2) (v : β)
    (m : List (String × β)) : alookup k2 (aset k1 v m) = alookup k2 m := by
  induction m with
  | nil => simp [aset, alookup, h]
  | cons hd t ih =>
    by_cases hk : hd.1 = k1
    · simp [aset, hk, alookup, h, ih]
    · simp [aset, hk, alookup, ih]

theorem aset_aset_same {β : Type} (k : String) (v1 v2 : β) (m : List (String × β)) :
    aset k v2 (aset k v1 m) = aset k v2 m := by
  induction m with
  | nil => simp [aset]
  | cons hd t ih =>
    by_cases hk : hd.1 = k
    · simp [aset, hk]
    · simp [aset, hk, ih]

/-! Equation lemmas for `redisIncr`. -/

theorem redisIncr_absent (s : RStore) (k : String) (h : alookup k s.strs = none) :
    redisIncr s k = some (1, { s with strs := aset k "1" s.strs }) := by
  unfold redisIncr
  rw [h]

theorem redisIncr_int (s : RStore) (k v : String) (n : Int)
    (hv : alookup k s.strs = some v) (hn : strictParseInt v = some n) :
    redisIncr s k = some (n + 1, { s with strs := aset k (toString (n + 1)) s.strs }) := by
  unfold redisIncr
  rw [hv]
  simp only [hn]

theorem redisIncr_bad (s : RStore) (k v : String)
    (hv : alookup k s.strs = some v) (hn : strictParseInt v = none) :
    redisIncr s k = none := by
  unfold redisIncr
  rw [hv]
  simp only [hn]

/-- Evaluation of `fixedWindow` on a window whose counter key is absent: SET to `"1"`,
then INCR to `"2"`, and allow. -/
theorem fixedWindow_eq_absent (cfg : Config) (t : Int) (ip : String) (s : RStore)
    (habs : alookup (fwKey cfg t ip) s.strs = none) :
    fixedWindow cfg t ip s =
      (true, { s with
        strs := aset (fwKey cfg t ip) "2" (aset (fwKey cfg t ip) "1" s.strs),
        ttlSec := aset (fwKey cfg t ip) cfg.windowMs s.ttlSec }) := by
  have hv : alookup (fwKey cfg t ip) (RStore.setEx s (fwKey cfg t ip) "1" cfg.windowMs).strs
      = some "1" := by
    simp [RStore.setEx, alookup_aset_self]
  have hinc := redisIncr_int (RStore.setEx s (fwKey cfg t ip) "1" cfg.windowMs)
      (fwKey cfg t ip) "1" 1 hv (by decide)
  have h2 : toString ((2 : Int)) = "2" := by decide
  simp only [fixedWindow, habs, if_pos, reduceIte]
  rw [hinc]
  simp [RStore.setEx, h2]

/-! Sliding-log structural lemmas. -/

theorem mem_slPrune {cfg : Config} {t x : Int} {l : List Int} :
    x ∈ slPrune cfg t l ↔ x ∈ l ∧ (x < 0 ∨ t - cfg.windowMs < x) := by
  simp only [slPrune, List.mem_filter, Bool.not_eq_eq_eq_not, Bool.not_true,
    Bool.and_eq_false_iff, decide_eq_false_iff_not, not_le]

theorem mem_zAddI_self (l : List Int) (t : Int) : t ∈ zAddI l t := by
  unfold zAddI
  split
  · next h => exact List.elem_iff.1 h
  · exact List.mem_append_right _ (List.mem_singleton_self t)

theorem mem_zAddI_of_mem {l : List Int} {x : Int} (t : Int) (h : x ∈ l) : x ∈ zAddI l t := by
  unfold zAddI
  split
  · exact h
  · exact List.mem_append_left _ h

theorem slidingLogs_unfold (cfg : Config) (t : Int) (ip : String) (s : RStore) :
    slidingLogs cfg t ip s =
      if cfg.maxRequests ≤ ((slPrune cfg t (logOf ip s)).length : Int)
      then (false, { s with zsets := aset (slKey ip) (slPrune cfg t (logOf ip s)) s.zsets })
      else (true, { s with
          zsets := aset (slKey ip) (zAddI (slPrune cfg t (logOf ip s)) t)
                     (aset (slKey ip) (slPrune cfg t (logOf ip s)) s.zsets),
          ttlSec := aset (slKey ip) (ceilDivInt cfg.windowMs 1000 + 60) s.ttlSec }) := rfl

theorem slidingLogs_allowed_iff (cfg : Config) (t : Int) (ip : String) (s : RStore) :
    (slidingLogs cfg t ip s).1 = true ↔
      ((slPrune cfg t (logOf ip s)).length : Int) < cfg.maxRequests := by
  by_cases hc : cfg.maxRequests ≤ ((slPrune cfg t (logOf ip s)).length : Int)
  · rw [slidingLogs_unfold, if_pos hc]
    simpa using not_lt.2 hc
  · rw [slidingLogs_unfold, if_neg hc]
    simpa using lt_of_not_le hc

theorem logOf_slidingLogs_true (cfg : Config) (t : Int) (ip : String) (s : RStore)
    (h : (slidingLogs cfg t ip s).1 = true) :
    logOf ip (slidingLogs cfg t ip s).2 = zAddI (slPrune cfg t (logOf ip s)) t := by
  by_cases hc : cfg.maxRequests ≤ ((slPrune cfg t (logOf ip s)).length : Int)
  · rw [slidingLogs_unfold, if_pos hc] at h
    simp at h
  · rw [slidingLogs_unfold, if_neg hc]
    simp [logOf, alookup_aset_self]

theorem logOf_slidingLogs_false (cfg : Config) (t : Int) (ip : String) (s : RStore)
    (h : (slidingLogs cfg t ip s).1 = false) :
    logOf ip (slidingLogs cfg t ip s).2 = slPrune cfg t (logOf ip s) := by
  by_cases hc : cfg.maxRequests ≤ ((slPrune cfg t (logOf ip s)).length : Int)
  · rw [slidingLogs_unfold, if_pos hc]
    simp [logOf, alookup_aset_self]
  · rw [slidingLogs_unfold, if_neg hc] at h
    simp at h

theorem slPrune_idem (cfg : Config) (t : Int) (l : List Int) :
    slPrune cfg t (slPrune cfg t l) = slPrune cfg t l := by
  induction l with
  | nil => rfl
  | cons a l ih =>
    by_cases h : (!(decide (0 ≤ a) && decide (a ≤ t - cfg.windowMs))) = true
    · simp only [slPrune, List.filter_cons] at ih ⊢
      rw [if_pos h, List.filter_cons, if_pos h, ih]
    · simp only [slPrune, List.filter_cons] at ih ⊢
      rw [if_neg h, ih]

theorem slPrune_keep_now (cfg : Config) (t : Int) (hw : 0 < cfg.windowMs) :
    (!(decide (0 ≤ t) && decide (t ≤ t - cfg.windowMs))) = true := by
  have h : ¬(t ≤ t - cfg.windowMs) := by omega
  simp [h]

theorem slPrune_zAddI (cfg : Config) (t : Int) (l : List Int) (hw : 0 < cfg.windowMs) :
    slPrune cfg t (zAddI (slPrune cfg t l) t) = zAddI (slPrune cfg t l) t := by
  unfold zAddI
  split
  · exact slPrune_idem cfg t l
  · show slPrune cfg t (slPrune cfg t l ++ [t]) = _
    rw [slPrune, List.filter_append]
    show slPrune cfg t (slPrune cfg t l) ++ _ = _
    rw [slPrune_idem]
    simp only [List.filter_cons, List.filter_nil, slPrune_keep_now cfg t hw, if_pos]

theorem zAddI_already_mem (l : List Int) (t : Int) (h : t ∈ l) : zAddI l t = l := by
  unfold zAddI
  rw [if_pos (List.elem_iff.2 h)]

/-! Per-strategy frame lemmas: an error-free call that denies leaves the
store unchanged (for `slidingLogs`, up to the pruning write). -/

theorem fixedWindow_false_frame (cfg : Config) (t : Int) (ip : String) (s : RStore)
    (h : (fixedWindow cfg t ip s).1 = false) : (fixedWindow cfg t ip s).2 = s := by
  rcases hv : alookup (fwKey cfg t ip) s.strs with _ | v
  · rw [fixedWindow_eq_absent cfg t ip s hv] at h
    simp at h
  · simp only [fixedWindow, hv, reduceIte] at h ⊢
    by_cases hemp : v = ""
    · simp only [hemp, reduceIte, if_pos] at h ⊢
      rcases hr : redisIncr s (fwKey cfg t ip) with _ | p <;> simp [hr] at h ⊢
    · by_cases hex : jsGe (jsParseInt v) (some cfg.maxRequests) = true
      · simp [hemp, hex] at h ⊢
      · simp only [hemp, reduceIte, hex, Bool.false_eq_true] at h ⊢
        rcases hr : redisIncr s (fwKey cfg t ip) with _ | p <;> simp [hr] at h ⊢

theorem slidingWindow_false_frame (cfg : Config) (t : Int) (ip : String) (s : RStore)
    (h : (slidingWindow cfg t ip s).1 = false) : (slidingWindow cfg t ip s).2 = s := by
  simp only [slidingWindow] at h ⊢
  split_ifs at h ⊢ <;> simp_all

theorem leakyBucket_false_frame (cfg : Config) (t : Int) (ip : String) (s : RStore)
    (h : (leakyBucket cfg t ip s).1 = false) : (leakyBucket cfg t ip s).2 = s := by
  simp only [leakyBucket] at h ⊢
  split_ifs at h ⊢ <;> simp_all

theorem tokenBucket_false_frame (cfg : Config) (t : Int) (ip : String) (s : RStore)
    (h : (tokenBucket cfg t ip s).1 = false) : (tokenBucket cfg t ip s).2 = s := by
  simp only [tokenBucket] at h ⊢
  split_ifs at h ⊢ <;> simp_all

theorem slidingLogs_false_frame (cfg : Config) (t : Int) (ip : String) (s : RStore)
    (h : (slidingLogs cfg t ip s).1 = false) :
    (slidingLogs cfg t ip s).2
      = { s with zsets := aset (slKey ip) (slPrune cfg t (logOf ip s)) s.zsets } := by
  by_cases hc : cfg.maxRequests ≤ ((slPrune cfg t (logOf ip s)).length : Int)
  · rw [slidingLogs_unfold, if_pos hc]
  · rw [slidingLogs_unfold, if_neg hc] at h
    simp at h

/-- C1: the spec requires every strategy to catch store errors and deny, but
`slidingWindow` has no `try`/`catch`: when the very first store round trip
(the `GET` of the current-window counter) raises, the call propagates the
error to its caller instead of returning `false`. -/
theorem slidingWindow_store_error_propagates :
    slidingWindowE (fun _ => true) ⟨5, 10000⟩ 0 "A" ⟨RStore.empty, 0⟩
      = (Except.error (), ⟨RStore.empty, 1⟩) := rfl

/-- C2 counterexample: on the first request of a window (`maxRequests = 5`,
`windowMs = 10000`, `t = 0`, empty store) the stored counter afterwards is
`"2"` — the code SETs it to 1 and then unconditionally INCRs — not `"1"`,
and the key's TTL is `windowMs` seconds (10000000 ms), not `windowMs`
milliseconds. -/
theorem fixedWindow_first_request_cex :
    (fixedWindow ⟨5, 10000⟩ 0 "A" RStore.empty).1 = true
    ∧ alookup "A:0" (fixedWindow ⟨5, 10000⟩ 0 "A" RStore.empty).2.strs = some "2"
    ∧ alookup "A:0" (fixedWindow ⟨5, 10000⟩ 0 "A" RStore.empty).2.strs ≠ some "1"
    ∧ (fixedWindow ⟨5, 10000⟩ 0 "A" RStore.empty).2.ttlMsOf "A:0" = some 10000000
    ∧ (10000000 : Int) ≠ 10000 := by
  refine ⟨rfl, rfl, ?_, rfl, ?_⟩ <;> decide

/-- C2 (amended): when the fixed-window counter key is absent, the call
returns `true`, the stored counter afterwards is `"2"` (initialised to 1,
then unconditionally incremented), and the key's TTL is set with
`EX windowMs`, i.e. `windowMs` seconds = `1000 * windowMs` milliseconds. -/
theorem fixedWindow_first_request (cfg : Config) (t : Int) (ip : String) (s : RStore)
    (habs : alookup (fwKey cfg t ip) s.strs = none) :
    (fixedWindow cfg t ip s).1 = true
    ∧ alookup (fwKey cfg t ip) (fixedWindow cfg t ip s).2.strs = some "2"
    ∧ (fixedWindow cfg t ip s).2.ttlMsOf (fwKey cfg t ip) = some (cfg.windowMs * 1000) := by
  rw [fixedWindow_eq_absent cfg t ip s habs]
  refine ⟨rfl, ?_, ?_⟩
  · simp [alookup_aset_self]
  · simp [RStore.ttlMsOf, alookup_aset_self]

/-- C2 witness: the amended claim at `t = 50`, identifier `"B"`, empty
store. -/
theorem fixedWindow_first_request_w :
    (fixedWindow ⟨5, 10000⟩ 50 "B" RStore.empty).1 = true
    ∧ alookup (fwKey ⟨5, 10000⟩ 50 "B") (fixedWindow ⟨5, 10000⟩ 50 "B" RStore.empty).2.strs
        = some "2"
    ∧ (fixedWindow ⟨5, 10000⟩ 50 "B" RStore.empty).2.ttlMsOf (fwKey ⟨5, 10000⟩ 50 "B")
        = some ((10000 : Int) * 1000) :=
  fixedWindow_first_request ⟨5, 10000⟩ 50 "B" RStore.empty (by decide)

/-- C8 counterexample: under failing-store semantics, when the `INCR` round
trip of `fixedWindow` raises after the initialising `SET` succeeded, the
call returns `false` yet the per-identifier state has been written (the
counter key now holds `"1"` with a TTL). -/
theorem fixedWindow_error_deny_writes :
    (fixedWindowE (fun n => n == 2) ⟨5, 10000⟩ 0 "A" ⟨RStore.empty, 0⟩).1 = Except.ok false
    ∧ alookup "A:0"
        (fixedWindowE (fun n => n == 2) ⟨5, 10000⟩ 0 "A" ⟨RStore.empty, 0⟩).2.store.strs
        = some "1"
    ∧ (fixedWindowE (fun n => n == 2) ⟨5, 10000⟩ 0 "A" ⟨RStore.empty, 0⟩).2.store
        ≠ RStore.empty := by
  refine ⟨rfl, rfl, ?_⟩
  decide

/-- C4 counterexample: with `maxRequests = 1`, `windowMs = 100`, a log entry
with score `0` and a call at `t = 100` (so the entry's score is exactly
`now - windowMs`), the call is allowed and the entry is gone afterwards:
Redis `zRemRangeByScore 0 (now - windowMs)` is inclusive, so the boundary
entry is removed and does not count, contradicting the claimed strict
removal and retention. -/
theorem slidingLogs_boundary_removed_cex :
    (slidingLogs ⟨1, 100⟩ 100 "B" ⟨[], [("sliding:B", [0])], [], []⟩).1 = true
    ∧ logOf "B" (slidingLogs ⟨1, 100⟩ 100 "B" ⟨[], [("sliding:B", [0])], [], []⟩).2 = [100]
    ∧ (0 : Int) ∉ logOf "B" (slidingLogs ⟨1, 100⟩ 100 "B" ⟨[], [("sliding:B", [0])], [], []⟩).2 := by
  refine ⟨rfl, rfl, ?_⟩
  decide

/-- C4 (amended): on every `slidingLogs` call at time `now`, exactly the log
entries with score in the closed interval `[0, now - windowMs]` are removed
before the cardinality is read (the Redis score range is inclusive at both
ends); an entry with score exactly `now - windowMs` (when nonnegative) is
removed and does not count toward the limit, and the call denies exactly
when the pruned cardinality has reached `maxRequests`. -/
theorem slidingLogs_prune_exact (cfg : Config) (t : Int) (ip : String) (s : RStore) :
    (∀ x : Int, x ∈ slPrune cfg t (logOf ip s) ↔
        x ∈ logOf ip s ∧ (x < 0 ∨ t - cfg.windowMs < x))
    ∧ ((slidingLogs cfg t ip s).1 = false ↔
        cfg.maxRequests ≤ ((slPrune cfg t (logOf ip s)).length : Int))
    ∧ (0 ≤ t - cfg.windowMs → t - cfg.windowMs ∉ slPrune cfg t (logOf ip s)) := by
  refine ⟨fun x => mem_slPrune, ?_, ?_⟩
  · have h := slidingLogs_allowed_iff cfg t ip s
    rcases Bool.eq_false_or_eq_true (slidingLogs cfg t ip s).1 with hb | hb <;>
      simp [hb] at h ⊢ <;> omega
  · intro h0 hmem
    rw [mem_slPrune] at hmem
    rcases hmem.2 with h | h <;> omega

/-- C4 witness: the boundary entry `t - windowMs = 0` of a concrete log is
not in the pruned log. -/
theorem slidingLogs_prune_exact_w :
    ((100 : Int) - 100) ∉ slPrune ⟨1, 100⟩ 100 (logOf "A" ⟨[], [("sliding:A", [0, 40])], [], []⟩) :=
  (slidingLogs_prune_exact ⟨1, 100⟩ 100 "A" ⟨[], [("sliding:A", [0, 40])], [], []⟩).2.2 (by decide)

/-- C8 (amended): in error-free executions, a call that returns `false`
leaves the per-identifier state unchanged, except `slidingLogs`, whose
pruning of expired entries is written regardless of the outcome.  (When a
store operation fails mid-call, writes already performed persist even
though `false` is returned — see the counterexample.) -/
theorem deny_leaves_state_unchanged (cfg : Config) (t : Int) (ip : String) (s : RStore) :
    ((fixedWindow cfg t ip s).1 = false → (fixedWindow cfg t ip s).2 = s)
    ∧ ((slidingWindow cfg t ip s).1 = false → (slidingWindow cfg t ip s).2 = s)
    ∧ ((leakyBucket cfg t ip s).1 = false → (leakyBucket cfg t ip s).2 = s)
    ∧ ((tokenBucket cfg t ip s).1 = false → (tokenBucket cfg t ip s).2 = s)
    ∧ ((slidingLogs cfg t ip s).1 = false →
        (slidingLogs cfg t ip s).2
          = { s with zsets := aset (slKey ip) (slPrune cfg t (logOf ip s)) s.zsets }) :=
  ⟨fixedWindow_false_frame cfg t ip s, slidingWindow_false_frame cfg t ip s,
   leakyBucket_false_frame cfg t ip s, tokenBucket_false_frame cfg t ip s,
   slidingLogs_false_frame cfg t ip s⟩

/-- C8 witness: a denied `fixedWindow` call (counter at the limit) leaves a
concrete store unchanged. -/
theorem deny_leaves_state_unchanged_w :
    (fixedWindow ⟨5, 10000⟩ 0 "A" ⟨[("A:0", "5")], [], [], []⟩).2
      = ⟨[("A:0", "5")], [], [], []⟩ :=
  (deny_leaves_state_unchanged ⟨5, 10000⟩ 0 "A" ⟨[("A:0", "5")], [], [], []⟩).1 (by decide)

/-- C10: an allowed `slidingLogs` call adds the entry
`{score: t, value: t.toString()}`; a second call at the same millisecond is
absorbed by `zAdd` (same member, same score), so it leaves the state
exactly as after the first call — the cardinality grows by at most one per
distinct millisecond. -/
theorem slidingLogs_same_ms_absorbed (cfg : Config) (t : Int) (ip : String) (s : RStore)
    (hw : 0 < cfg.windowMs)
    (h1 : (slidingLogs cfg t ip s).1 = true) :
    (slidingLogs cfg t ip (slidingLogs cfg t ip s).2).2 = (slidingLogs cfg t ip s).2 := by
  have hlog1 : logOf ip (slidingLogs cfg t ip s).2
      = zAddI (slPrune cfg t (logOf ip s)) t := logOf_slidingLogs_true cfg t ip s h1
  have hprune2 : slPrune cfg t (logOf ip (slidingLogs cfg t ip s).2)
      = logOf ip (slidingLogs cfg t ip s).2 := by
    rw [hlog1]
    exact slPrune_zAddI cfg t (logOf ip s) hw
  have hz2 : zAddI (logOf ip (slidingLogs cfg t ip s).2) t
      = logOf ip (slidingLogs cfg t ip s).2 := by
    refine zAddI_already_mem _ t ?_
    rw [hlog1]
    exact mem_zAddI_self _ t
  have hc1 : ((slPrune cfg t (logOf ip s)).length : Int) < cfg.maxRequests :=
    (slidingLogs_allowed_iff cfg t ip s).1 h1
  have hpost : (slidingLogs cfg t ip s).2
      = { s with
          zsets := aset (slKey ip) (zAddI (slPrune cfg t (logOf ip s)) t)
                     (aset (slKey ip) (slPrune cfg t (logOf ip s)) s.zsets),
          ttlSec := aset (slKey ip) (ceilDivInt cfg.windowMs 1000 + 60) s.ttlSec } := by
    rw [slidingLogs_unfold, if_neg (not_le.2 hc1)]
  rw [slidingLogs_unfold cfg t ip ((slidingLogs cfg t ip s).2), hprune2, hz2]
  split
  · rw [hpost]
    simp [aset_aset_same, logOf, alookup_aset_self]
  · rw [hpost]
    simp [aset_aset_same, logOf, alookup_aset_self]

/-- C10 witness: a first allowed call at `t = 0` on the empty store, then a
second call at the same millisecond, leaves the state of the first call. -/
theorem slidingLogs_same_ms_absorbed_w :
    (slidingLogs ⟨5, 100⟩ 0 "A" (slidingLogs ⟨5, 100⟩ 0 "A" RStore.empty).2).2
      = (slidingLogs ⟨5, 100⟩ 0 "A" RStore.empty).2 :=
  slidingLogs_same_ms_absorbed ⟨5, 100⟩ 0 "A" RStore.empty (by decide) (by decide)

/-! `NaN`-propagation facts for the JS-number shim. -/

theorem jsAdd_none_left (y : JInt) : jsAdd none y = none := by cases y <;> rfl

theorem jsSub_none_right (x : JInt) : jsSub x none = none := by cases x <;> rfl

theorem jsSub_none_left (y : JInt) : jsSub none y = none := by cases y <;> rfl

theorem jsGe_none_left (y : JInt) : jsGe none y = false := by cases y <;> rfl

theorem jsLe_none_left (y : JInt) : jsLe none y = false := by cases y <;> rfl

theorem jsMax_none_right (x : JInt) : jsMax x none = none := by cases x <;> rfl

theorem jqAdd_none_right (x : JRat) : jqAdd x none = none := by cases x <;> rfl

theorem jqGe_none_left (y : JRat) : jqGe none y = false := by cases y <;> rfl

theorem hsetFields_two (h : List (String × String)) (f1 v1 f2 v2 : String) :
    hsetFields h [(f1, v1), (f2, v2)] = aset f2 v2 (aset f1 v1 h) := rfl

/-- C5: the sliding-window (weighted counter) decision: with parsed
current-window count `c` and previous-window count `p` (absent or falsy
values read as 0), the call denies when `c ≥ maxRequests`, otherwise denies
when `p * (1 - (now mod windowMs) / windowMs) + c ≥ maxRequests`, and
otherwise writes `c + 1` to the current-window key with expiry parameter
`windowMs` and allows. -/
theorem slidingWindow_decision (cfg : Config) (t : Int) (ip : String) (s : RStore) (c p : Int)
    (hc : jsTruthyParse (alookup (swKey ip (Int.fdiv t cfg.windowMs)) s.strs) = some c)
    (hp : jsTruthyParse (alookup (swKey ip (Int.fdiv t cfg.windowMs - 1)) s.strs) = some p) :
    slidingWindow cfg t ip s =
      if cfg.maxRequests ≤ c then (false, s)
      else if (cfg.maxRequests : ℚ) ≤
          (p : ℚ) * (1 - ((t % cfg.windowMs : Int) : ℚ) / (cfg.windowMs : ℚ)) + (c : ℚ)
        then (false, s)
      else (true,
        s.setEx (swKey ip (Int.fdiv t cfg.windowMs)) (toString (c + 1)) cfg.windowMs) := by
  simp only [slidingWindow, hc, hp, jsGe, weightedOf, jqOf, jqMul, jqAdd, jqGe, jsAdd,
    jsToString, ge_iff_le, decide_eq_true_eq]

/-- C5 witness: `maxRequests = 5`, `windowMs = 10000`, `t = 2500`, current
count 2, previous count 4: the weighted count is `4 * 0.75 + 2 = 5 ≥ 5`,
so the call denies and leaves the store unchanged. -/
theorem slidingWindow_decision_w :
    slidingWindow ⟨5, 10000⟩ 2500 "A" ⟨[("A:0", "2"), ("A:-1", "4")], [], [], []⟩
      = (false, ⟨[("A:0", "2"), ("A:-1", "4")], [], [], []⟩) := by
  rw [slidingWindow_decision ⟨5, 10000⟩ 2500 "A" ⟨[("A:0", "2"), ("A:-1", "4")], [], [], []⟩ 2 4
    (by decide) (by decide)]
  norm_num

/-- C6: whenever `now - lastRefill ≥ windowMs` (with an absent `lastRefill`
parsed as 0, which covers the first call for an identifier), `tokenBucket`
allows and stores `tokenCount = maxRequests - 1`, `lastRefill = now`; in
particular after a full window with no requests the next call always
allows. -/
theorem tokenBucket_refill (cfg : Config) (t : Int) (ip : String) (s : RStore) (lr : Int)
    (hlr : jsTruthyParse (hField s (tbKey ip) "lastRefill") = some lr)
    (he : cfg.windowMs ≤ t - lr) :
    (tokenBucket cfg t ip s).1 = true
    ∧ hField (tokenBucket cfg t ip s).2 (tbKey ip) "tokenCount"
        = some (toString (cfg.maxRequests - 1))
    ∧ hField (tokenBucket cfg t ip s).2 (tbKey ip) "lastRefill" = some (toString t) := by
  simp only [tokenBucket, hlr, jsSub, jsGe, ge_iff_le, decide_eq_true_eq, if_pos he,
    hsetFields_two]
  refine ⟨by simp, ?_, ?_⟩
  · rw [hField, hashOf]
    simp only [alookup_aset_self, Option.getD_some]
    rw [alookup_aset_ne (by decide) _ _, alookup_aset_self]
  · rw [hField, hashOf]
    simp only [alookup_aset_self, Option.getD_some]

/-- C6 witness: first call at `t = windowMs` on the empty store. -/
theorem tokenBucket_refill_w :
    (tokenBucket ⟨5, 10000⟩ 10000 "A" RStore.empty).1 = true
    ∧ hField (tokenBucket ⟨5, 10000⟩ 10000 "A" RStore.empty).2 (tbKey "A") "tokenCount"
        = some (toString ((5 : Int) - 1))
    ∧ hField (tokenBucket ⟨5, 10000⟩ 10000 "A" RStore.empty).2 (tbKey "A") "lastRefill"
        = some (toString (10000 : Int)) :=
  tokenBucket_refill ⟨5, 10000⟩ 10000 "A" RStore.empty 0 (by decide) (by decide)

/-- C7: the leaky-bucket decision: with parsed `lastRequest = lq` and
`bucketLevel = lvl` (absent or falsy values read as 0) and
`newLevel = max 0 (lvl - floor((now - lq) / (windowMs / maxRequests)))`,
the call returns `false` iff `newLevel ≥ maxRequests`, and on `true` it
writes exactly `lastRequest = now`, `bucketLevel = newLevel + 1` (and
refreshes the TTL). -/
theorem leakyBucket_decision (cfg : Config) (t : Int) (ip : String) (s : RStore) (lq lvl : Int)
    (h1 : jsTruthyParse (hField s (lbKey ip) "lastRequest") = some lq)
    (h2 : jsTruthyParse (hField s (lbKey ip) "bucketLevel") = some lvl) :
    ((leakyBucket cfg t ip s).1 = false ↔
        cfg.maxRequests
          ≤ max 0 (lvl - ⌊((t - lq : Int) : ℚ) / ((cfg.windowMs : ℚ) / (cfg.maxRequests : ℚ))⌋))
    ∧ ((leakyBucket cfg t ip s).1 = true →
        (leakyBucket cfg t ip s).2 = { s with
          hashes := aset (lbKey ip)
            (hsetFields (hashOf (lbKey ip) s)
              [("lastRequest", toString t),
               ("bucketLevel", toString
                 (max 0 (lvl
                   - ⌊((t - lq : Int) : ℚ) / ((cfg.windowMs : ℚ) / (cfg.maxRequests : ℚ))⌋) + 1))])
            s.hashes,
          ttlSec := aset (lbKey ip) (ceilDivInt cfg.windowMs 1000 + 60) s.ttlSec }) := by
  simp only [leakyBucket, h1, h2, jsSub, leakedOf, jsMax, jsGe, jsAdd, jsToString,
    ge_iff_le, decide_eq_true_eq]
  by_cases hcond : cfg.maxRequests
      ≤ max 0 (lvl - ⌊((t - lq : Int) : ℚ) / ((cfg.windowMs : ℚ) / (cfg.maxRequests : ℚ))⌋)
  · rw [if_pos hcond]
    refine ⟨⟨fun _ => hcond, fun _ => rfl⟩, fun hT => ?_⟩
    simp at hT
  · rw [if_neg hcond]
    refine ⟨⟨fun hf => ?_, fun hc => absurd hc hcond⟩, fun _ => rfl⟩
    simp at hf

/-- C7 witness: `maxRequests = 5`, `windowMs = 10000`, stored level 5 at
`lastRequest = 0`, call at `t = 0`: nothing has leaked, `newLevel = 5 ≥ 5`,
so the call denies. -/
theorem leakyBucket_decision_w :
    (leakyBucket ⟨5, 10000⟩ 0 "A"
        ⟨[], [], [("leaky:A", [("lastRequest", "0"), ("bucketLevel", "5")])], []⟩).1 = false :=
  ((leakyBucket_decision ⟨5, 10000⟩ 0 "A"
      ⟨[], [], [("leaky:A", [("lastRequest", "0"), ("bucketLevel", "5")])], []⟩ 0 5
      (by decide) (by decide)).1).mpr (by norm_num)

/-- C9 counterexample: with the stored hash
`token:A ↦ {tokenCount: "abc", lastRefill: "50"}` (`maxRequests = 5`,
`windowMs = 10000`, `t = 100`) the call allows and writes
`tokenCount = "NaN"`, whereas the same call with `tokenCount` absent writes
`tokenCount = "4"`: the unparseable value is propagated into the written
state instead of being treated as absent. -/
theorem malformed_not_absent_cex :
    (tokenBucket ⟨5, 10000⟩ 100 "A"
        ⟨[], [], [("token:A", [("tokenCount", "abc"), ("lastRefill", "50")])], []⟩).1 = true
    ∧ hField (tokenBucket ⟨5, 10000⟩ 100 "A"
        ⟨[], [], [("token:A", [("tokenCount", "abc"), ("lastRefill", "50")])], []⟩).2
        "token:A" "tokenCount" = some "NaN"
    ∧ hField (tokenBucket ⟨5, 10000⟩ 100 "A"
        ⟨[], [], [("token:A", [("lastRefill", "50")])], []⟩).2
        "token:A" "tokenCount" = some "4"
    ∧ (some "NaN" : Option String) ≠ some "4" := by
  refine ⟨rfl, rfl, rfl, ?_⟩
  decide

/-- C9 (amended): a stored value that fails to parse becomes `NaN`, which is
not treated as absent: every comparison involving it is false, so it never
triggers a deny by itself, and it propagates into the written state as the
string `"NaN"`.  Concretely: `fixedWindow` with an unparseable counter
skips the limit check but then denies because `INCR` errors on the value;
`slidingWindow` with an unparseable current count allows and writes
`"NaN"`; `tokenBucket` with unparseable `tokenCount` and `lastRefill`
allows and writes both fields as `"NaN"`; `leakyBucket` with an unparseable
`bucketLevel` allows and writes `bucketLevel = "NaN"`. -/
theorem malformed_not_absent (cfg : Config) (t : Int) (ip : String) (s : RStore) :
    (∀ v : String, alookup (fwKey cfg t ip) s.strs = some v → v ≠ "" →
        jsParseInt v = none → strictParseInt v = none →
        fixedWindow cfg t ip s = (false, s))
    ∧ (∀ v : String, alookup (swKey ip (Int.fdiv t cfg.windowMs)) s.strs = some v → v ≠ "" →
        jsParseInt v = none →
        (slidingWindow cfg t ip s).1 = true
        ∧ alookup (swKey ip (Int.fdiv t cfg.windowMs)) (slidingWindow cfg t ip s).2.strs
            = some "NaN")
    ∧ (∀ v u : String, hField s (tbKey ip) "tokenCount" = some v → v ≠ "" →
        jsParseInt v = none →
        hField s (tbKey ip) "lastRefill" = some u → u ≠ "" → jsParseInt u = none →
        (tokenBucket cfg t ip s).1 = true
        ∧ hField (tokenBucket cfg t ip s).2 (tbKey ip) "tokenCount" = some "NaN"
        ∧ hField (tokenBucket cfg t ip s).2 (tbKey ip) "lastRefill" = some "NaN")
    ∧ (∀ v : String, hField s (lbKey ip) "bucketLevel" = some v → v ≠ "" →
        jsParseInt v = none →
        (leakyBucket cfg t ip s).1 = true
        ∧ hField (leakyBucket cfg t ip s).2 (lbKey ip) "bucketLevel" = some "NaN") := by
  refine ⟨?_, ?_, ?_, ?_⟩
  · intro v hv hemp hjp hsp
    simp only [fixedWindow, hv, reduceCtorEq, reduceIte, hemp, hjp, jsGe_none_left,
      Bool.false_eq_true, redisIncr_bad s (fwKey cfg t ip) v hv hsp]
  · intro v hv hemp hjp
    simp only [slidingWindow, hv, jsTruthyParse, hemp, reduceIte, hjp, jsGe_none_left,
      Bool.false_eq_true, weightedOf, jqOf, jqAdd_none_right, jqGe_none_left,
      jsAdd_none_left, jsToString, RStore.setEx]
    exact ⟨trivial, alookup_aset_self _ _ _⟩
  · intro v u hv hemp hjp hu hempu hjpu
    simp only [tokenBucket, hv, hu, jsTruthyParse, hemp, hempu, reduceIte, hjp, hjpu,
      jsSub_none_right, jsSub_none_left, jsGe_none_left, jsLe_none_left, Bool.false_eq_true,
      jsToString, hsetFields_two]
    refine ⟨trivial, ?_, ?_⟩
    · rw [hField, hashOf]
      simp only [alookup_aset_self, Option.getD_some]
      rw [alookup_aset_ne (by decide) _ _, alookup_aset_self]
    · rw [hField, hashOf]
      simp only [alookup_aset_self, Option.getD_some]
  · intro v hv hemp hjp
    simp only [leakyBucket, hv, jsTruthyParse, hemp, reduceIte, hjp, jsSub_none_left,
      jsMax_none_right, jsGe_none_left, Bool.false_eq_true, jsAdd_none_left, jsToString,
      hsetFields_two]
    refine ⟨trivial, ?_⟩
    rw [hField, hashOf]
    simp only [alookup_aset_self, Option.getD_some]

/-- C9 witness: the amended behaviour at a concrete malformed store. -/
theorem malformed_not_absent_w :
    (fixedWindow ⟨5, 10000⟩ 100 "B"
        ⟨[("B:0", "zz")], [],
         [("token:B", [("tokenCount", "xx"), ("lastRefill", "yy")]),
          ("leaky:B", [("bucketLevel", "qq")])], []⟩
      = (false,
        ⟨[("B:0", "zz")], [],
         [("token:B", [("tokenCount", "xx"), ("lastRefill", "yy")]),
          ("leaky:B", [("bucketLevel", "qq")])], []⟩))
    ∧ (slidingWindow ⟨5, 10000⟩ 100 "B"
        ⟨[("B:0", "zz")], [],
         [("token:B", [("tokenCount", "xx"), ("lastRefill", "yy")]),
          ("leaky:B", [("bucketLevel", "qq")])], []⟩).1 = true
    ∧ (tokenBucket ⟨5, 10000⟩ 100 "B"
        ⟨[("B:0", "zz")], [],
         [("token:B", [("tokenCount", "xx"), ("lastRefill", "yy")]),
          ("leaky:B", [("bucketLevel", "qq")])], []⟩).1 = true
    ∧ (leakyBucket ⟨5, 10000⟩ 100 "B"
        ⟨[("B:0", "zz")], [],
         [("token:B", [("tokenCount", "xx"), ("lastRefill", "yy")]),
          ("leaky:B", [("bucketLevel", "qq")])], []⟩).1 = true := by
  have h := malformed_not_absent ⟨5, 10000⟩ 100 "B"
    ⟨[("B:0", "zz")], [],
     [("token:B", [("tokenCount", "xx"), ("lastRefill", "yy")]),
      ("leaky:B", [("bucketLevel", "qq")])], []⟩
  exact ⟨h.1 "zz" (by decide) (by decide) (by decide) (by decide),
    (h.2.1 "zz" (by decide) (by decide) (by decide)).1,
    (h.2.2.1 "xx" "yy" (by decide) (by decide) (by decide) (by decide) (by decide)
      (by decide)).1,
    (h.2.2.2 "qq" (by decide) (by decide) (by decide)).1⟩

/-! Counting lemmas for `countAllowedIn`. -/

theorem countAllowedIn_nil_bs (w T : Int) (ts : List Int) : countAllowedIn w T ts [] = 0 := by
  simp [countAllowedIn]

theorem countAllowedIn_cons (w T t : Int) (b : Bool) (ts : List Int) (bs : List Bool) :
    countAllowedIn w T (t :: ts) (b :: bs)
      = (if b && decide (T - w < t) && decide (t ≤ T) then 1 else 0)
        + countAllowedIn w T ts bs := by
  by_cases hc : (b && decide (T - w < t) && decide (t ≤ T)) = true
  · simp [countAllowedIn, List.filter_cons, hc, Nat.add_comm]
  · simp [countAllowedIn, List.filter_cons, hc]

/-- Invariant propagation: running `slidingLogs` sequentially over strictly
increasing timestamps produces a decision sequence satisfying the per-call
admission bound `allowBound`, for any history `H` of already-allowed
timestamps that are all present in the stored log while still in range. -/
theorem run_allowBound (cfg : Config) (ip : String) (hw : 0 < cfg.windowMs) :
    ∀ (ts : List Int) (s : RStore) (H : List Int),
      List.Pairwise (· < ·) ts →
      (∀ x ∈ H, ∀ u ∈ ts, x < u) →
      H.Nodup →
      (∀ x ∈ H, ∀ u ∈ ts, (x < 0 ∨ u - cfg.windowMs < x) → x ∈ logOf ip s) →
      allowBound cfg H ts (slidingLogsRun cfg ip s ts) := by
  intro ts
  induction ts with
  | nil =>
    intro s H _ _ _ _
    simp [slidingLogsRun, allowBound]
  | cons t ts ih =>
    intro s H hp hlt hnd hinv
    simp only [slidingLogsRun]
    cases hb : (slidingLogs cfg t ip s).1 with
    | false =>
      simp only [allowBound]
      apply ih
      · exact hp.of_cons
      · intro x hx u hu
        exact hlt x hx u (List.mem_cons_of_mem t hu)
      · exact hnd
      · intro x hx u hu hdisj
        rw [logOf_slidingLogs_false cfg t ip s hb, mem_slPrune]
        refine ⟨hinv x hx u (List.mem_cons_of_mem t hu) hdisj, ?_⟩
        rcases hdisj with h | h
        · exact Or.inl h
        · right
          have htu : t < u := (List.pairwise_cons.1 hp).1 u hu
          omega
    | true =>
      simp only [allowBound]
      constructor
      · have hsub : H.filter (fun x => decide (t - cfg.windowMs < x))
            ⊆ slPrune cfg t (logOf ip s) := by
          intro x hx
          rw [List.mem_filter] at hx
          have hxgt : t - cfg.windowMs < x := of_decide_eq_true hx.2
          exact mem_slPrune.2
            ⟨hinv x hx.1 t (List.mem_cons_self t ts) (Or.inr hxgt), Or.inr hxgt⟩
        have hlen := (List.subperm_of_subset (hnd.filter _) hsub).length_le
        have hcard := (slidingLogs_allowed_iff cfg t ip s).1 hb
        have hcast : ((H.filter (fun x => decide (t - cfg.windowMs < x))).length : Int)
            ≤ ((slPrune cfg t (logOf ip s)).length : Int) := by exact_mod_cast hlen
        omega
      · apply ih
        · exact hp.of_cons
        · intro x hx u hu
          rcases List.mem_cons.1 hx with rfl | hxH
          · exact (List.pairwise_cons.1 hp).1 u hu
          · exact hlt x hxH u (List.mem_cons_of_mem t hu)
        · refine List.nodup_cons.2 ⟨fun hmem => ?_, hnd⟩
          exact absurd (hlt t hmem t (List.mem_cons_self t ts)) (lt_irrefl t)
        · intro x hx u hu hdisj
          rw [logOf_slidingLogs_true cfg t ip s hb]
          rcases List.mem_cons.1 hx with rfl | hxH
          · exact mem_zAddI_self _ x
          · have htu : t < u := (List.pairwise_cons.1 hp).1 u hu
            have hdisj2 : x < 0 ∨ t - cfg.windowMs < x := by
              rcases hdisj with h | h
              · exact Or.inl h
              · right; omega
            exact mem_zAddI_of_mem t
              (mem_slPrune.2 ⟨hinv x hxH u (List.mem_cons_of_mem t hu) hdisj, hdisj2⟩)

/-- Counting: a decision sequence satisfying `allowBound` admits at most
`maxRequests` allows inside any trailing window, counting also the history
`H`, provided `H` alone already satisfies the window bound. -/
theorem allowBound_count (cfg : Config) :
    ∀ (ts : List Int) (bs : List Bool) (H : List Int),
      allowBound cfg H ts bs →
      List.Pairwise (· < ·) ts →
      (∀ x ∈ H, ∀ u ∈ ts, x < u) →
      (∀ T' : Int,
        ((H.filter (fun x => decide (T' - cfg.windowMs < x) && decide (x ≤ T'))).length : Int)
          ≤ cfg.maxRequests) →
      ∀ T : Int,
        ((H.filter (fun x => decide (T - cfg.windowMs < x) && decide (x ≤ T))).length : Int)
          + (countAllowedIn cfg.windowMs T ts bs : Int) ≤ cfg.maxRequests := by
  intro ts
  induction ts with
  | nil =>
    intro bs H _ _ _ hHb T
    simp only [countAllowedIn, List.zip_nil_left, List.filter_nil, List.length_nil]
    simpa using hHb T
  | cons t ts ih =>
    intro bs H hab hp hlt hHb T
    cases bs with
    | nil =>
      rw [countAllowedIn_nil_bs]
      simpa using hHb T
    | cons b bs =>
      cases b with
      | false =>
        simp only [allowBound] at hab
        have hres := ih bs H hab hp.of_cons
          (fun x hx u hu => hlt x hx u (List.mem_cons_of_mem t hu)) hHb T
        rw [countAllowedIn_cons]
        simpa using hres
      | true =>
        simp only [allowBound] at hab
        obtain ⟨hlt1, hab2⟩ := hab
        have hHb2 : ∀ T' : Int,
            (((t :: H).filter
              (fun x => decide (T' - cfg.windowMs < x) && decide (x ≤ T'))).length : Int)
              ≤ cfg.maxRequests := by
          intro T'
          by_cases hwin : (decide (T' - cfg.windowMs < t) && decide (t ≤ T')) = true
          · rw [List.filter_cons, if_pos hwin]
            rw [Bool.and_eq_true, decide_eq_true_eq, decide_eq_true_eq] at hwin
            have hmono : List.Sublist
                (H.filter (fun x => decide (T' - cfg.windowMs < x) && decide (x ≤ T')))
                (H.filter (fun x => decide (t - cfg.windowMs < x))) := by
              apply List.monotone_filter_right
              intro a ha
              rw [Bool.and_eq_true, decide_eq_true_eq, decide_eq_true_eq] at ha
              rw [decide_eq_true_eq]
              omega
            have hcast : ((H.filter
                (fun x => decide (T' - cfg.windowMs < x) && decide (x ≤ T'))).length : Int)
                ≤ ((H.filter (fun x => decide (t - cfg.windowMs < x))).length : Int) := by
              exact_mod_cast hmono.length_le
            simp only [List.length_cons]
            push_cast
            omega
          · rw [List.filter_cons, if_neg hwin]
            exact hHb T'
        have hlt2 : ∀ x ∈ t :: H, ∀ u ∈ ts, x < u := by
          intro x hx u hu
          rcases List.mem_cons.1 hx with rfl | hxH
          · exact (List.pairwise_cons.1 hp).1 u hu
          · exact hlt x hxH u (List.mem_cons_of_mem t hu)
        have hres := ih bs (t :: H) hab2 hp.of_cons hlt2 hHb2 T
        rw [countAllowedIn_cons]
        by_cases hwin : (decide (T - cfg.windowMs < t) && decide (t ≤ T)) = true
        · rw [List.filter_cons, if_pos hwin] at hres
          simp only [hwin, Bool.true_and, if_pos, List.length_cons] at hres ⊢
          push_cast at hres ⊢
          omega
        · rw [List.filter_cons, if_neg hwin] at hres
          simp only [hwin, Bool.true_and, if_neg, List.length_cons] at hres ⊢
          push_cast at hres ⊢
          omega

/-- C3 counterexample: `maxRequests = 2`, `windowMs = 100`, three sequential
calls all at the same millisecond `t = 0` starting from the empty store:
all three are allowed (the second and third `zAdd` are absorbed by the
identical member, so the cardinality stays below the limit), hence the
trailing interval `(-100, 0]` contains 3 > 2 allowed calls. -/
theorem slidingLogs_same_ms_burst_cex :
    slidingLogsRun ⟨2, 100⟩ "A" RStore.empty [0, 0, 0] = [true, true, true]
    ∧ countAllowedIn 100 0 [0, 0, 0] (slidingLogsRun ⟨2, 100⟩ "A" RStore.empty [0, 0, 0]) = 3
    ∧ ¬((countAllowedIn 100 0 [0, 0, 0]
          (slidingLogsRun ⟨2, 100⟩ "A" RStore.empty [0, 0, 0]) : Int) ≤ 2) := by
  refine ⟨rfl, rfl, ?_⟩
  decide

/-- C3 (amended): for every sequence of sequential `slidingLogs` calls for
one identifier with strictly increasing timestamps (no store errors,
positive budget), the number of allowed calls whose timestamps lie in any
trailing interval `(T - windowMs, T]` never exceeds `maxRequests`. -/
theorem slidingLogs_window_bound (cfg : Config) (ip : String) (s : RStore) (ts : List Int)
    (T : Int) (hw : 0 < cfg.windowMs) (hm : 0 < cfg.maxRequests)
    (hts : List.Pairwise (· < ·) ts) :
    ((countAllowedIn cfg.windowMs T ts (slidingLogsRun cfg ip s ts)) : Int)
      ≤ cfg.maxRequests := by
  have hA := run_allowBound cfg ip hw ts s [] hts (by simp) List.nodup_nil (by simp)
  have hB := allowBound_count cfg ts (slidingLogsRun cfg ip s ts) [] hA hts (by simp)
    (fun T' => by simpa using hm.le) T
  simpa using hB

/-- C3 witness: three strictly increasing calls `0, 50, 120` with
`maxRequests = 2`, `windowMs = 100`: at most 2 allows in the trailing
interval ending at `T = 120`. -/
theorem slidingLogs_window_bound_w :
    ((countAllowedIn 100 120 [0, 50, 120]
        (slidingLogsRun ⟨2, 100⟩ "A" RStore.empty [0, 50, 120])) : Int) ≤ 2 :=
  slidingLogs_window_bound ⟨2, 100⟩ "A" RStore.empty [0, 50, 120] 120 (by decide) (by decide)
    (by decide)

end RateLimiter
